import Mathlib

/-!
Verification of the retina-node config-merger
(`src/config-merger/script/merge_config.py`).

The script is embedded shallowly: YAML documents become the inductive
type `Yaml`, the filesystem effects of one run become an explicit list
of events (`FsOp`), and `main` becomes the pure function `runMain` from
a description of the world (`RunInput`) to an exit code, event trace and
resulting file states.

The script delegates the deep merge to the external `mergedeep` library
(`from mergedeep import merge`), whose source is not part of the
repository; that one operation is modelled from the specification's
merge rules (spec section 4.2) and is marked as such in its doc comment.
-/

namespace RetinaNode

/-- A YAML document as produced by `yaml.safe_load`: scalars, sequences
and mappings with string keys in insertion order. -/
inductive Yaml where
  | null
  | bool (b : Bool)
  | int (n : Int)
  | str (s : String)
  | seq (xs : List Yaml)
  | map (kvs : List (String × Yaml))
deriving Repr

/-- Python truthiness of a loaded YAML value (`if user:`, `if forced:`,
`if not config:` in the script): `None`, `False`, `0`, `""`, `[]` and
`{}` are falsy, everything else truthy. -/
def Yaml.truthy : Yaml → Bool
  | .null => false
  | .bool b => b
  | .int n => n != 0
  | .str s => s != ""
  | .seq xs => !xs.isEmpty
  | .map kvs => !kvs.isEmpty

/-- Whether a value is a mapping (Python `isinstance(x, Mapping)`). -/
def Yaml.isMap : Yaml → Bool
  | .map _ => true
  | _ => false

/-- First-match association lookup: Python `d[k]` / `k in d` on a dict
rendered as an insertion-ordered key/value list. -/
def lookupKey : List (String × Yaml) → String → Option Yaml
  | [], _ => none
  | (k', v) :: rest, k => if k' = k then some v else lookupKey rest k

/-- Python `d[k] = v` on a dict: an existing key keeps its position and
gets the new value, a new key is appended at the end. -/
def setKey : List (String × Yaml) → String → Yaml → List (String × Yaml)
  | [], k, v => [(k, v)]
  | (k', v') :: rest, k, v =>
      if k' = k then (k, v) :: rest else (k', v') :: setKey rest k v

mutual
/-- Modelled from the spec: the deep-merge operation.  The script uses
`mergedeep.merge`, an external library whose source is not in the
repository, so the operation follows spec section 4.2: if both values
are mappings, merge key-by-key (keys only in the base are kept, keys
only in the overlay are appended in overlay order, keys in both are
merged recursively); any other combination is replaced wholesale by the
overlay's value. -/
def merge : Yaml → Yaml → Yaml
  | .map base, .map overlay =>
      .map (mergeList base overlay ++
            overlay.filter fun kv => (lookupKey base kv.1).isNone)
  | _, o => o

/-- Key-by-key treatment of the base mapping's entries during a merge:
each base entry keeps its position; its value is merged with the
overlay's value when the overlay also has the key. -/
def mergeList : List (String × Yaml) → List (String × Yaml) → List (String × Yaml)
  | [], _ => []
  | (k, v) :: rest, ov =>
      (k, match lookupKey ov k with
          | some w => merge v w
          | none => v) :: mergeList rest ov
end

/-- The two-sided key treatment of a map-with-map merge, named so the
result of `merge` on two mappings can be reasoned about directly. -/
def mergeMapKVs (base ov : List (String × Yaml)) : List (String × Yaml) :=
  mergeList base ov ++ ov.filter fun kv => (lookupKey base kv.1).isNone

/-- Navigation through nested mappings: the value reached from `y` by
following a list of keys. -/
def lookupPath : Yaml → List String → Option Yaml
  | y, [] => some y
  | .map kvs, k :: rest =>
      match lookupKey kvs k with
      | some v => lookupPath v rest
      | none => none
  | _, _ :: _ => none

/-- The keys of a mapping's entry list are pairwise distinct (always
true of a list obtained from a Python dict). -/
def nodupKeys : List (String × Yaml) → Bool
  | [] => true
  | (k, _) :: rest => (lookupKey rest k).isNone && nodupKeys rest

mutual
/-- A tree is well formed when every mapping in it (through mapping
values) has pairwise-distinct keys; every tree coming out of
`yaml.safe_load` is well formed because Python dict keys are unique. -/
def Yaml.wf : Yaml → Bool
  | .map kvs => nodupKeys kvs && wfList kvs
  | _ => true

/-- Well-formedness of every value of an entry list. -/
def wfList : List (String × Yaml) → Bool
  | [] => true
  | (_, v) :: rest => v.wf && wfList rest
end

/-- The merge order of `main` (lines 143-163): the default tree, then
the user overlay if it has truthy content, then the forced overlay if it
has truthy content. -/
def pipelineMerge (d u f : Yaml) : Yaml :=
  let c1 := if u.truthy then merge d u else d
  if f.truthy then merge c1 f else c1

/-! ### Hardware serial extraction (`get_rpi_serial`, lines 29-49)

The `/proc/cpuinfo` content is modelled as a string; Python's substring
test, `splitlines`, `split(':')`, `strip` and negative slicing are
modelled on the character list of the string. -/

/-- Test that `needle` occurs contiguously at the start of `hay` (Python
`startswith` on the remaining text). -/
def listStartsWith : List Char → List Char → Bool
  | _, [] => true
  | [], _ :: _ => false
  | c :: cs, p :: ps => c == p && listStartsWith cs ps

/-- Test that `needle` occurs contiguously somewhere in `hay` (Python `in` on
strings). -/
def listHasSeg : List Char → List Char → Bool
  | hay, needle =>
    match hay with
    | [] => needle.isEmpty
    | _ :: rest => listStartsWith hay needle || listHasSeg rest needle

/-- Split a character list at every occurrence of `sep` (Python
`str.split` / `splitlines` for a single separator character). -/
def splitOnChar (sep : Char) : List Char → List (List Char)
  | [] => [[]]
  | c :: cs =>
    if c == sep then [] :: splitOnChar sep cs
    else
      match splitOnChar sep cs with
      | [] => [[c]]
      | l :: ls => (c :: l) :: ls

/-- Python `str.strip()`: drop whitespace from both ends. -/
def trimChars (cs : List Char) : List Char :=
  ((cs.dropWhile Char.isWhitespace).reverse.dropWhile Char.isWhitespace).reverse

/-- Python `s[-n:]` for `n ≤ len s`: the last `n` characters. -/
def lastN (n : Nat) (cs : List Char) : List Char :=
  cs.drop (cs.length - n)

/-- Python `line.split(':')[1]`: the text between the first colon and
the following colon or end of line; `none` when the line has no colon,
in which case the script's `IndexError` aborts the whole read (the
surrounding `try` then yields `None`). -/
def fieldAfterColon : List Char → Option (List Char)
  | [] => none
  | c :: cs => if c == ':' then some (cs.takeWhile fun d => d != ':') else fieldAfterColon cs

/-- The all-zero placeholder serial rejected by the script. -/
def zeroSerial : List Char := "0000000000000000".data

/-- The scan over the cpuinfo lines (lines 40-45): the first
`Serial`-led line whose stripped value is at least 8 characters and not
the all-zero placeholder yields its last 8 characters; a `Serial`-led
line without a colon raises, which the outer handler turns into no
serial at all. -/
def serialCandidate : List (List Char) → Option (List Char)
  | [] => none
  | line :: rest =>
    if listStartsWith line "Serial".data then
      match fieldAfterColon line with
      | none => none
      | some fieldRaw =>
        let serial := trimChars fieldRaw
        if 8 ≤ serial.length ∧ serial ≠ zeroSerial then some (lastN 8 serial)
        else serialCandidate rest
    else serialCandidate rest

/-- Model of `get_rpi_serial()`: `none` when `/proc/cpuinfo` is unreadable, when
the content mentions neither `Raspberry Pi` nor `BCM`, or when no
acceptable `Serial` line is found. -/
def getRpiSerial (cpuinfo : Option String) : Option String :=
  match cpuinfo with
  | none => none
  | some content =>
    if listHasSeg content.data "Raspberry Pi".data = false ∧
       listHasSeg content.data "BCM".data = false then none
    else (serialCandidate (splitOnChar (Char.ofNat 10) content.data)).map
      fun cs => String.mk cs

/-! ### Filesystem effects and the node-id update (`ensure_node_id`,
lines 52-94) -/

/-- One filesystem mutation performed by the script.  A written YAML
file is carried as its parsed tree (`yaml.dump` round-trips). -/
inductive FsOp where
  | makedirs (d : String)
  | writeFile (p : String) (content : Yaml)
  | copyFile (src dst : String)
  | rename (src dst : String)
deriving Repr

/-- The path an operation creates or overwrites. -/
def FsOp.target : FsOp → String
  | .makedirs d => d
  | .writeFile p _ => p
  | .copyFile _ d => d
  | .rename _ d => d

/-- The state of one file: absent, present but unparseable, or present
with a parsed tree (an empty file parses to `null`). -/
def FileState : Type := Option (Except Unit Yaml)

/-- The temporary path used by the node-id atomic write (line 85). -/
def nodeIdTemp (userPath : String) (pid : Nat) : String :=
  userPath ++ ".node_id_tmp." ++ toString pid

/-- Effect of `user_config['network']['node_id'] = node_id` on dicts: the updated
tree, insertion order preserved. -/
def injectNodeId (kvs nkvs : List (String × Yaml)) (nid : String) : Yaml :=
  .map (setKey kvs "network" (.map (setKey nkvs "node_id" (.str nid))))

/-- The decision core of `ensure_node_id`: the new user tree to write,
or `none` when nothing is written (file unreadable or unparseable — the
exception is caught; no usable serial; identifier already correct; or a
`TypeError` from a non-mapping user tree or `network` entry, also
caught).  A falsy parse result is replaced by an empty mapping
(`yaml.safe_load(f) or {}`). -/
def nodeIdUpdate (user : FileState) (cpuinfo : Option String) : Option Yaml :=
  match user with
  | some (Except.ok u) =>
    match getRpiSerial cpuinfo with
    | some s =>
      let nid := "ret" ++ s
      match (if u.truthy then u else Yaml.map []) with
      | .map kvs =>
        match lookupKey kvs "network" with
        | some (.map nkvs) =>
          match lookupKey nkvs "node_id" with
          | some (.str cur) =>
            if cur = nid then none else some (injectNodeId kvs nkvs nid)
          | some _ => some (injectNodeId kvs nkvs nid)
          | none => some (injectNodeId kvs nkvs nid)
        | some _ => none
        | none => some (injectNodeId kvs [] nid)
      | _ => none
    | none => none
  | _ => none

/-- Model of `ensure_node_id(user_config_path)`: possibly rewrites the user
overlay through a temporary file followed by a rename to the same path;
every failure is caught and leaves the file untouched. -/
def ensureNodeId (userPath : String) (pid : Nat) (user : FileState)
    (cpuinfo : Option String) : FileState × List FsOp :=
  match nodeIdUpdate user cpuinfo with
  | none => (user, [])
  | some newU =>
    (some (Except.ok newU),
     [FsOp.writeFile (nodeIdTemp userPath pid) newU,
      FsOp.rename (nodeIdTemp userPath pid) userPath])

/-! ### The pipeline (`main`, lines 97-183) -/

/-- Model of `os.path.dirname`: everything before the last slash. -/
def dirName (p : String) : String :=
  String.mk (((p.data.reverse.dropWhile fun c => c != '/').drop 1).reverse)

/-- The temporary path used when creating the user overlay (line 129). -/
def tmpCreate (userPath : String) (pid : Nat) : String :=
  userPath ++ ".tmp." ++ toString pid

/-- One invocation's input: the command line and the relevant world
state (the three layer files, `/proc/cpuinfo`, the process id). -/
structure RunInput where
  argv : List String
  defaultFile : FileState
  userFile : FileState
  forcedFile : FileState
  cpuinfo : Option String
  pid : Nat

/-- One invocation's outcome: exit code, filesystem mutations in
order, the user overlay's final state, and the merged tree written to
the primary output (`none` when the run fails before writing it). -/
structure RunResult where
  exitCode : Nat
  events : List FsOp
  userAfter : FileState
  output : Option Yaml

/-- Steps 6-7 of the pipeline (lines 165-175): the merged tree is
written directly to the output path — no temporary file, no rename —
then optionally copied to the debug path. -/
def writeOutput (outputPath debugPath : String) (userAfter : FileState)
    (evs : List FsOp) (c : Yaml) : RunResult :=
  ⟨0,
   evs ++ [FsOp.makedirs (dirName outputPath), FsOp.writeFile outputPath c] ++
     (if debugPath = "" then []
      else [FsOp.makedirs (dirName debugPath), FsOp.copyFile outputPath debugPath]),
   userAfter, some c⟩

/-- Step 5 (lines 156-163): overlay the forced layer when its file
exists; a parse failure raises into the top-level handler. -/
def applyForced (outputPath debugPath : String) (userAfter : FileState)
    (evs : List FsOp) (forcedFile : FileState) (c1 : Yaml) : RunResult :=
  match forcedFile with
  | none => writeOutput outputPath debugPath userAfter evs c1
  | some (Except.error _) => ⟨1, evs, userAfter, none⟩
  | some (Except.ok f) =>
      writeOutput outputPath debugPath userAfter evs
        (if f.truthy then merge c1 f else c1)

/-- Model of `main()`: argument check (exactly four arguments are required, line
99), default load with fatal empty/malformed handling, user-overlay
creation from the default file, node-id injection, the two merges, and
the output/debug writes.  Exceptions anywhere inside the big `try`
reach the top-level handler and exit with code 1. -/
def runMain (i : RunInput) : RunResult :=
  match i.argv with
  | [_prog, defaultsDir, userPath, outputPath, debugPath] =>
    match i.defaultFile with
    | none => ⟨1, [], i.userFile, none⟩
    | some (Except.error _) => ⟨1, [], i.userFile, none⟩
    | some (Except.ok d) =>
      if d.truthy then
        let created := i.userFile.isNone
        let ev1 : List FsOp :=
          if created then
            [FsOp.makedirs (dirName userPath),
             FsOp.copyFile (defaultsDir ++ "/default.yml") (tmpCreate userPath i.pid),
             FsOp.rename (tmpCreate userPath i.pid) userPath]
          else []
        let user1 : FileState := if created then some (Except.ok d) else i.userFile
        let r2 := ensureNodeId userPath i.pid user1 i.cpuinfo
        match r2.1 with
        | some (Except.error e) => ⟨1, ev1 ++ r2.2, some (Except.error e), none⟩
        | some (Except.ok u) =>
          applyForced outputPath debugPath (some (Except.ok u)) (ev1 ++ r2.2)
            i.forcedFile (if u.truthy then merge d u else d)
        | none =>
          applyForced outputPath debugPath none (ev1 ++ r2.2) i.forcedFile d
      else ⟨1, [], i.userFile, none⟩
  | _ => ⟨1, [], i.userFile, none⟩


/-- The user tree on disk after `ensure_node_id` ran on an overlay that
parsed to `d`: unchanged when nothing was written, else the written
tree. -/
def afterTree (d : Yaml) (cpuinfo : Option String) : Yaml :=
  match nodeIdUpdate (some (Except.ok d)) cpuinfo with
  | none => d
  | some w => w

/-- Whether `ensure_node_id`'s dict update can succeed on this tree: it
is a mapping whose `network` entry, when present, is itself a mapping
(otherwise the assignment raises a caught `TypeError`). -/
def networkInjectable : Yaml → Bool
  | .map kvs =>
    match lookupKey kvs "network" with
    | none => true
    | some (.map _) => true
    | some _ => false
  | _ => false

/-- A cpuinfo text of a Pi with a valid serial; the acceptable last 8
characters are `abcdef12`. -/
def cpuGood : String := "Raspberry Pi 4 Model B\nSerial\t: 10000000abcdef12"

/-- The default tree of the repository's tar1090 test
(`test_tar1090_env_adsblol_disabled`-style, numeric fields as
integers). -/
def tar1090Default : Yaml :=
  .map [("process", .map [("pfa", .int 1)]),
        ("tar1090", .map [("adsblol_fallback", .bool false),
                          ("adsblol_radius", .int 40),
                          ("location", .map [("lat", .int 0), ("lon", .int 0),
                                             ("alt", .int 0)])])]

/-- A four-argument invocation on a fresh world whose default layer
contains the `tar1090` sub-section. -/
def tar1090Input : RunInput :=
  { argv := ["merge_config.py", "defaults", "config/user.yml",
             "config/config.yml", "config/config.retina.yml"]
    defaultFile := some (Except.ok tar1090Default)
    userFile := none
    forcedFile := some (Except.ok (.map []))
    cpuinfo := none
    pid := 7 }

/-- The same world invoked with only the three required arguments, as
the repository's tests do. -/
def threeArgInput : RunInput :=
  { argv := ["merge_config.py", "defaults", "config/user.yml",
             "config/config.yml"]
    defaultFile := some (Except.ok tar1090Default)
    userFile := none
    forcedFile := some (Except.ok (.map []))
    cpuinfo := none
    pid := 7 }

/-- A world whose existing user overlay file is malformed (does not
parse), with a healthy default layer. -/
def malformedUserInput : RunInput :=
  { argv := ["merge_config.py", "defaults", "config/user.yml",
             "config/config.yml", ""]
    defaultFile := some (Except.ok tar1090Default)
    userFile := some (Except.error ())
    forcedFile := some (Except.ok (.map []))
    cpuinfo := none
    pid := 7 }

/-- A default tree with a `network` mapping and no stored node id. -/
def freshPiDefault : Yaml :=
  .map [("network", .map [("ip", .str "0.0.0.0")]),
        ("process", .map [("pfa", .int 1)])]

/-- A fresh world on Pi hardware: no user overlay yet, valid serial,
default layer with a `network` mapping. -/
def freshPiInput : RunInput :=
  { argv := ["merge_config.py", "defaults", "config/user.yml",
             "config/config.yml", ""]
    defaultFile := some (Except.ok freshPiDefault)
    userFile := none
    forcedFile := some (Except.ok (.map []))
    cpuinfo := some cpuGood
    pid := 7 }

example : merge (.int 5) (.map []) = .map [] := by rfl

example :
    merge (.map [("a", .map [("x", .int 1), ("y", .int 2)])])
          (.map [("a", .map [("x", .int 9)])]) =
      .map [("a", .map [("x", .int 9), ("y", .int 2)])] := by rfl

example :
    merge (.map [("l", .seq [.int 1, .int 2, .int 3])])
          (.map [("l", .seq [.int 4, .int 5])]) =
      .map [("l", .seq [.int 4, .int 5])] := by rfl

/-! ### Basic lookup lemmas -/

theorem lookupKey_append (l₁ l₂ : List (String × Yaml)) (k : String) :
    lookupKey (l₁ ++ l₂) k =
      match lookupKey l₁ k with
      | some v => some v
      | none => lookupKey l₂ k := by
  induction l₁ with
  | nil => simp [lookupKey]
  | cons kv rest ih =>
    obtain ⟨k', v⟩ := kv
    by_cases h : k' = k <;> simp [lookupKey, h, ih]

theorem lookupKey_isSome_of_mem {l : List (String × Yaml)} {k : String}
    {v : Yaml} (h : (k, v) ∈ l) : (lookupKey l k).isSome = true := by
  induction l with
  | nil => simp at h
  | cons kv rest ih =>
    obtain ⟨k', v'⟩ := kv
    by_cases hk : k' = k
    · simp [lookupKey, hk]
    · rcases List.mem_cons.mp h with h | h
      · cases h; simp at hk
      · simp [lookupKey, hk, ih h]

theorem mem_of_lookupKey {l : List (String × Yaml)} {k : String} {v : Yaml}
    (h : lookupKey l k = some v) : (k, v) ∈ l := by
  induction l with
  | nil => simp [lookupKey] at h
  | cons kv rest ih =>
    obtain ⟨k', v'⟩ := kv
    by_cases hk : k' = k
    · subst hk
      simp [lookupKey] at h
      simp [h]
    · simp [lookupKey, hk] at h
      exact List.mem_cons_of_mem _ (ih h)

theorem lookupKey_of_nodup_mem {l : List (String × Yaml)} {k : String}
    {v : Yaml} (hnd : nodupKeys l = true) (h : (k, v) ∈ l) :
    lookupKey l k = some v := by
  induction l with
  | nil => simp at h
  | cons kv rest ih =>
    obtain ⟨k', v'⟩ := kv
    simp [nodupKeys] at hnd
    rcases List.mem_cons.mp h with h | h
    · cases h; simp [lookupKey]
    · by_cases hk : k' = k
      · subst hk
        have := lookupKey_isSome_of_mem h
        rw [hnd.1] at this
        simp at this
      · simp [lookupKey, hk, ih hnd.2 h]

theorem wf_of_wfList_mem {l : List (String × Yaml)} {k : String} {v : Yaml}
    (hwf : wfList l = true) (h : (k, v) ∈ l) : v.wf = true := by
  induction l with
  | nil => simp at h
  | cons kv rest ih =>
    obtain ⟨k', v'⟩ := kv
    simp [wfList] at hwf
    rcases List.mem_cons.mp h with h | h
    · cases h; exact hwf.1
    · exact ih hwf.2 h

/-! ### Characterization of the merged mapping -/

theorem lookupKey_mergeList (base ov : List (String × Yaml)) (k : String) :
    lookupKey (mergeList base ov) k =
      match lookupKey base k with
      | some v =>
        some (match lookupKey ov k with
              | some w => merge v w
              | none => v)
      | none => none := by
  induction base with
  | nil => simp [mergeList, lookupKey]
  | cons kv rest ih =>
    obtain ⟨k', v⟩ := kv
    by_cases h : k' = k <;> simp [mergeList, lookupKey, h, ih]

theorem lookupKey_filter_overlay (base ov : List (String × Yaml)) (k : String) :
    lookupKey (ov.filter fun kv => (lookupKey base kv.1).isNone) k =
      if (lookupKey base k).isNone then lookupKey ov k else none := by
  induction ov with
  | nil => simp [lookupKey]
  | cons kv rest ih =>
    obtain ⟨k', v⟩ := kv
    cases hb : lookupKey base k' with
    | none =>
      by_cases hk : k' = k
      · subst hk; simp [List.filter, lookupKey, hb, ih]
      · simp [List.filter, lookupKey, hb, hk, ih]
    | some w =>
      by_cases hk : k' = k
      · subst hk; simp [List.filter, lookupKey, hb, ih]
      · simp [List.filter, lookupKey, hb, hk, ih]

theorem lookupKey_mergeMapKVs (base ov : List (String × Yaml)) (k : String) :
    lookupKey (mergeMapKVs base ov) k =
      match lookupKey base k, lookupKey ov k with
      | some v, some w => some (merge v w)
      | some v, none => some v
      | none, r => r := by
  rw [mergeMapKVs, lookupKey_append, lookupKey_mergeList,
      lookupKey_filter_overlay]
  cases hb : lookupKey base k <;> cases ho : lookupKey ov k <;> simp [hb, ho]

theorem merge_map_map (base ov : List (String × Yaml)) :
    merge (.map base) (.map ov) = .map (mergeMapKVs base ov) := rfl

theorem merge_of_not_both_map (b o : Yaml)
    (h : b.isMap = false ∨ o.isMap = false) : merge b o = o := by
  cases b <;> cases o <;> first
    | rfl
    | simp [Yaml.isMap] at h

/-! ### Merge algebra -/

theorem mergeList_nil_overlay (l : List (String × Yaml)) : mergeList l [] = l := by
  induction l with
  | nil => rfl
  | cons kv rest ih =>
    obtain ⟨k, v⟩ := kv
    simp [mergeList, lookupKey, ih]

theorem mergeList_eq_of_stable {l ov : List (String × Yaml)}
    (h : ∀ kv ∈ l, ∀ w, lookupKey ov kv.1 = some w → merge kv.2 w = kv.2) :
    mergeList l ov = l := by
  induction l with
  | nil => rfl
  | cons kv rest ih =>
    obtain ⟨k, v⟩ := kv
    have hrest := ih fun kv hm => h kv (List.mem_cons_of_mem _ hm)
    cases ho : lookupKey ov k with
    | none => simp [mergeList, ho, hrest]
    | some w =>
      have hst := h (k, v) (List.mem_cons_self _ _) w ho
      simp [mergeList, ho, hrest, hst]

theorem mem_mergeList {l ov : List (String × Yaml)} {kv : String × Yaml}
    (h : kv ∈ mergeList l ov) :
    ∃ v₀, (kv.1, v₀) ∈ l ∧
      kv.2 = (match lookupKey ov kv.1 with
              | some w => merge v₀ w
              | none => v₀) := by
  induction l with
  | nil => simp [mergeList] at h
  | cons kv' rest ih =>
    obtain ⟨k, v⟩ := kv'
    rw [mergeList] at h
    rcases List.mem_cons.mp h with h | h
    · subst h
      exact ⟨v, List.mem_cons_self _ _, rfl⟩
    · obtain ⟨v₀, hm, he⟩ := ih h
      exact ⟨v₀, List.mem_cons_of_mem _ hm, he⟩

theorem sizeOf_val_lt_of_mem {l : List (String × Yaml)} {k : String}
    {v : Yaml} (h : (k, v) ∈ l) : sizeOf v < sizeOf l := by
  have h1 := List.sizeOf_lt_of_mem h
  have h2 : sizeOf (k, v) = 1 + sizeOf k + sizeOf v := by simp
  omega

theorem merge_self_fuel :
    ∀ (n : Nat) (y : Yaml), sizeOf y ≤ n → y.wf = true → merge y y = y := by
  intro n
  induction n with
  | zero =>
    intro y hsz _
    cases y <;> simp at hsz
  | succ n ih =>
    intro y hsz hwf
    cases y with
    | null => rfl
    | bool b => rfl
    | int m => rfl
    | str s => rfl
    | seq xs => rfl
    | map kvs =>
      simp only [Yaml.wf, Bool.and_eq_true] at hwf
      obtain ⟨hnd, hwl⟩ := hwf
      have hszl : sizeOf kvs ≤ n := by
        have : sizeOf (Yaml.map kvs) = 1 + sizeOf kvs := by simp
        omega
      rw [merge_map_map, mergeMapKVs]
      have hfil : (kvs.filter fun kv => (lookupKey kvs kv.1).isNone) = [] := by
        rw [List.filter_eq_nil_iff]
        intro kv hm
        obtain ⟨k, v⟩ := kv
        have hs := lookupKey_isSome_of_mem hm
        intro hcontra
        rw [Option.isNone_iff_eq_none] at hcontra
        rw [hcontra] at hs
        simp at hs
      have hml : mergeList kvs kvs = kvs := by
        apply mergeList_eq_of_stable
        intro kv hm w hw
        obtain ⟨k, v⟩ := kv
        have hv : lookupKey kvs k = some v := lookupKey_of_nodup_mem hnd hm
        rw [hv] at hw
        injection hw with hw
        subst hw
        have hszv : sizeOf v ≤ n := by
          have := sizeOf_val_lt_of_mem hm
          omega
        exact ih v hszv (wf_of_wfList_mem hwl hm)
      rw [hfil, hml]
      simp

/-- Merging a well-formed tree with itself changes nothing. -/
theorem merge_self (y : Yaml) (h : y.wf = true) : merge y y = y :=
  merge_self_fuel (sizeOf y) y le_rfl h

theorem merge_reapply_fuel :
    ∀ (n : Nat) (b : Yaml), sizeOf b ≤ n → ∀ (a : Yaml),
      a.wf = true → b.wf = true → merge (merge a b) b = merge a b := by
  intro n
  induction n with
  | zero =>
    intro b hsz
    cases b <;> simp at hsz
  | succ n ih =>
    intro b hsz a hwa hwb
    by_cases hbm : b.isMap = true
    · cases b with
      | map bkvs =>
        by_cases ham : a.isMap = true
        · cases a with
          | map akvs =>
            simp only [Yaml.wf, Bool.and_eq_true] at hwa hwb
            obtain ⟨hnda, hwla⟩ := hwa
            obtain ⟨hndb, hwlb⟩ := hwb
            have hszb : sizeOf bkvs ≤ n := by
              have : sizeOf (Yaml.map bkvs) = 1 + sizeOf bkvs := by simp
              omega
            rw [merge_map_map akvs bkvs, merge_map_map]
            have hfil :
                (bkvs.filter fun kv =>
                  (lookupKey (mergeMapKVs akvs bkvs) kv.1).isNone) = [] := by
              rw [List.filter_eq_nil_iff]
              intro kv hm
              obtain ⟨k, v⟩ := kv
              have hbk := lookupKey_isSome_of_mem hm
              rw [lookupKey_mergeMapKVs]
              cases hla : lookupKey akvs k <;>
                cases hlb : lookupKey bkvs k <;> simp_all
            have hml : mergeList (mergeMapKVs akvs bkvs) bkvs =
                mergeMapKVs akvs bkvs := by
              apply mergeList_eq_of_stable
              intro kv hmem w hw
              rcases List.mem_append.mp hmem with hm | hm
              · obtain ⟨v₀, hm₀, he⟩ := mem_mergeList hm
                rw [hw] at he
                have hww : w.wf = true :=
                  wf_of_wfList_mem hwlb (mem_of_lookupKey hw)
                have hwv₀ : v₀.wf = true := wf_of_wfList_mem hwla hm₀
                have hszw : sizeOf w ≤ n := by
                  have := sizeOf_val_lt_of_mem (mem_of_lookupKey hw)
                  omega
                rw [he]
                exact ih w hszw v₀ hwv₀ hww
              · have hmb := (List.mem_filter.mp hm).1
                obtain ⟨k, v⟩ := kv
                have hv : lookupKey bkvs k = some v :=
                  lookupKey_of_nodup_mem hndb hmb
                rw [hv] at hw
                injection hw with hw
                subst hw
                exact merge_self v (wf_of_wfList_mem hwlb hmb)
            rw [mergeMapKVs, hfil, hml]
            simp [mergeMapKVs]
          | null => simp [Yaml.isMap] at ham
          | bool b => simp [Yaml.isMap] at ham
          | int m => simp [Yaml.isMap] at ham
          | str s => simp [Yaml.isMap] at ham
          | seq xs => simp [Yaml.isMap] at ham
        · simp only [Bool.not_eq_true] at ham
          have h1 : merge a (Yaml.map bkvs) = Yaml.map bkvs :=
            merge_of_not_both_map a (Yaml.map bkvs) (Or.inl ham)
          rw [h1]
          exact merge_self _ hwb
      | null => simp [Yaml.isMap] at hbm
      | bool c => simp [Yaml.isMap] at hbm
      | int m => simp [Yaml.isMap] at hbm
      | str s => simp [Yaml.isMap] at hbm
      | seq xs => simp [Yaml.isMap] at hbm
    · simp only [Bool.not_eq_true] at hbm
      have h1 : merge a b = b := merge_of_not_both_map a b (Or.inr hbm)
      rw [h1]
      exact merge_of_not_both_map b b (Or.inr hbm)

/-- Re-applying an overlay to an already-merged well-formed tree is
stable. -/
theorem merge_reapply (a b : Yaml) (hwa : a.wf = true) (hwb : b.wf = true) :
    merge (merge a b) b = merge a b :=
  merge_reapply_fuel (sizeOf b) b le_rfl a hwa hwb

theorem merge_empty_overlay (kvs : List (String × Yaml)) :
    merge (.map kvs) (.map []) = .map kvs := by
  rw [merge_map_map, mergeMapKVs, mergeList_nil_overlay]
  simp

/-- A value present in the overlay at a path and not itself a mapping
survives the merge unchanged at that path, whatever the base. -/
theorem lookupPath_merge_overlay :
    ∀ (p : List String) (x f v : Yaml), lookupPath f p = some v →
      v.isMap = false → lookupPath (merge x f) p = some v := by
  intro p
  induction p with
  | nil =>
    intro x f v hf hv
    simp only [lookupPath, Option.some.injEq] at hf
    subst hf
    rw [merge_of_not_both_map x f (Or.inr hv)]
    simp [lookupPath]
  | cons k rest ih =>
    intro x f v hf hv
    cases f with
    | null => simp [lookupPath] at hf
    | bool b => simp [lookupPath] at hf
    | int m => simp [lookupPath] at hf
    | str s => simp [lookupPath] at hf
    | seq xs => simp [lookupPath] at hf
    | map fkvs =>
      simp only [lookupPath] at hf
      cases hfk : lookupKey fkvs k with
      | none => rw [hfk] at hf; simp at hf
      | some w =>
        rw [hfk] at hf
        cases x with
        | map xkvs =>
          rw [merge_map_map]
          simp only [lookupPath, lookupKey_mergeMapKVs, hfk]
          cases hxk : lookupKey xkvs k with
          | some u => exact ih u w v hf hv
          | none => exact hf
        | null =>
          rw [merge_of_not_both_map (Yaml.null) (Yaml.map fkvs) (Or.inl rfl)]
          simp only [lookupPath, hfk]
          exact hf
        | bool b =>
          rw [merge_of_not_both_map (Yaml.bool b) (Yaml.map fkvs) (Or.inl rfl)]
          simp only [lookupPath, hfk]
          exact hf
        | int m =>
          rw [merge_of_not_both_map (Yaml.int m) (Yaml.map fkvs) (Or.inl rfl)]
          simp only [lookupPath, hfk]
          exact hf
        | str s =>
          rw [merge_of_not_both_map (Yaml.str s) (Yaml.map fkvs) (Or.inl rfl)]
          simp only [lookupPath, hfk]
          exact hf
        | seq xs =>
          rw [merge_of_not_both_map (Yaml.seq xs) (Yaml.map fkvs) (Or.inl rfl)]
          simp only [lookupPath, hfk]
          exact hf

/-- C3: if both values at a path are mappings they are merged
key-by-key — keys only in the base are kept, keys only in the overlay
are added, keys in both are merged recursively — and any other
combination (sequence, scalar, or mixed) is replaced wholesale by the
overlay's value, sequences never being concatenated or element-merged. -/
theorem c3_merge_rules :
    (∀ base ov, merge (.map base) (.map ov) = .map (mergeMapKVs base ov)) ∧
    (∀ base ov k, lookupKey (mergeMapKVs base ov) k =
        match lookupKey base k, lookupKey ov k with
        | some v, some w => some (merge v w)
        | some v, none => some v
        | none, r => r) ∧
    (∀ b o : Yaml, b.isMap = false ∨ o.isMap = false → merge b o = o) :=
  ⟨merge_map_map, lookupKey_mergeMapKVs, merge_of_not_both_map⟩

/-- Witness for C3: sibling preservation inside a mapping merge and
wholesale replacement of a sequence, at concrete inputs. -/
theorem c3_merge_rules_witness :
    merge (.map [("a", .map [("x", .int 1), ("y", .int 2)])])
          (.map [("a", .map [("x", .int 9)])]) =
        .map [("a", .map [("x", .int 9), ("y", .int 2)])] ∧
    merge (.seq [.int 1, .int 2, .int 3]) (.seq [.int 4, .int 5]) =
        .seq [.int 4, .int 5] := by
  constructor
  · rw [c3_merge_rules.1 [("a", .map [("x", .int 1), ("y", .int 2)])]
        [("a", .map [("x", .int 9)])]]
    rfl
  · exact c3_merge_rules.2.2 _ _ (Or.inl rfl)

/-- C4: a non-mapping value present in the forced layer at a path
survives the pipeline's fixed merge order (default, then user, then
forced) whatever the default and user layers hold there. -/
theorem c4_forced_layer_wins (d u f : Yaml) (p : List String) (v : Yaml)
    (hf : lookupPath f p = some v) (hv : v.isMap = false)
    (ht : f.truthy = true) :
    lookupPath (pipelineMerge d u f) p = some v := by
  unfold pipelineMerge
  simp only [ht, if_true]
  exact lookupPath_merge_overlay p _ f v hf hv

/-- Witness for C4: the forced layer's scalar overrides both the user
and the default value at a shared nested key path. -/
theorem c4_forced_layer_wins_witness :
    lookupPath (pipelineMerge
        (.map [("process", .map [("pfa", .int 1), ("minDelay", .int 5)])])
        (.map [("process", .map [("pfa", .int 2)])])
        (.map [("process", .map [("pfa", .int 3)])]))
      ["process", "pfa"] = some (.int 3) :=
  c4_forced_layer_wins _ _ _ _ _ rfl rfl rfl

/-- C9 counterexample: under the spec's own merge rules, an empty
mapping overlay is not a no-op on a non-mapping base — the mixed-type
combination makes the overlay replace the base, so `merge 5 {}` is `{}`
rather than `5`. -/
theorem c9_empty_overlay_counterexample :
    merge (.int 5) (.map []) ≠ .int 5 := by
  intro h
  rw [show merge (Yaml.int 5) (Yaml.map []) = Yaml.map [] from rfl] at h
  exact Yaml.noConfusion h

/-- C9 (amended): an empty mapping overlay is a no-op on every mapping
base, and re-applying the same overlay to an already-merged tree is
stable for trees whose mappings have pairwise-distinct keys (every tree
produced by `yaml.safe_load` is such). -/
theorem c9_merge_idempotence :
    (∀ kvs, merge (.map kvs) (.map []) = .map kvs) ∧
    (∀ a b : Yaml, a.wf = true → b.wf = true →
      merge (merge a b) b = merge a b) :=
  ⟨merge_empty_overlay, merge_reapply⟩

/-- Witness for C9 at concrete trees. -/
theorem c9_merge_idempotence_witness :
    merge (.map [("a", .int 1)]) (.map []) = .map [("a", .int 1)] ∧
    merge (merge (.map [("a", .int 1), ("b", .int 7)])
                 (.map [("a", .int 2)]))
          (.map [("a", .int 2)]) =
      merge (.map [("a", .int 1), ("b", .int 7)]) (.map [("a", .int 2)]) :=
  ⟨c9_merge_idempotence.1 _, c9_merge_idempotence.2 _ _ rfl rfl⟩

/-! ### Pipeline structure lemmas -/

theorem applyForced_userAfter (op dp : String) (us : FileState)
    (evs : List FsOp) (ff : FileState) (c1 : Yaml) :
    (applyForced op dp us evs ff c1).userAfter = us := by
  rcases ff with _ | r
  · rfl
  · rcases r with e | f <;> rfl

theorem applyForced_cases (op dp : String) (us : FileState)
    (evs : List FsOp) (ff : FileState) (c1 : Yaml) :
    applyForced op dp us evs ff c1 = ⟨1, evs, us, none⟩ ∨
    ∃ c, applyForced op dp us evs ff c1 =
      ⟨0, evs ++ [FsOp.makedirs (dirName op), FsOp.writeFile op c] ++
          (if dp = "" then []
           else [FsOp.makedirs (dirName dp), FsOp.copyFile op dp]),
       us, some c⟩ := by
  rcases ff with _ | r
  · exact Or.inr ⟨c1, rfl⟩
  · rcases r with e | f
    · exact Or.inl rfl
    · exact Or.inr ⟨if f.truthy then merge c1 f else c1, rfl⟩

theorem ensureNodeId_state_cases (up : String) (pid : Nat) (user : FileState)
    (cpu : Option String) :
    ensureNodeId up pid user cpu = (user, []) ∨
    ∃ w, ensureNodeId up pid user cpu =
      (some (Except.ok w),
       [FsOp.writeFile (nodeIdTemp up pid) w,
        FsOp.rename (nodeIdTemp up pid) up]) := by
  unfold ensureNodeId
  cases nodeIdUpdate user cpu with
  | none => exact Or.inl rfl
  | some w => exact Or.inr ⟨w, rfl⟩

theorem ensureNodeId_ok_state (up : String) (pid : Nat) (d : Yaml)
    (cpu : Option String) :
    (ensureNodeId up pid (some (Except.ok d)) cpu).1 =
      some (Except.ok (afterTree d cpu)) := by
  unfold ensureNodeId afterTree
  cases nodeIdUpdate (some (Except.ok d)) cpu <;> rfl

/-! ### C1 and C2 -/

/-- C1: `main` never emits `<dir of output>/tar1090.env`.  At a
concrete run whose default layer holds the `tar1090` sub-section (the
scenario of the repository's own tar1090 tests), the run succeeds, the
merged output contains the sub-section, yet no filesystem operation of
the whole run targets `config/tar1090.env`: the script has no
environment-file generation step at all, contradicting its tests and
the spec. -/
theorem c1_no_tar1090_env_emitted :
    (runMain tar1090Input).exitCode = 0 ∧
    (runMain tar1090Input).output = some tar1090Default ∧
    (lookupPath tar1090Default ["tar1090"]).isSome = true ∧
    ((runMain tar1090Input).events.all
      fun e => e.target != "config/tar1090.env") = true :=
  ⟨rfl, rfl, rfl, rfl⟩

/-- C2: a three-argument invocation (no debug path), the very form the
repository's tests use, is rejected by the argument check
(`len(sys.argv) != 5`): the run performs no filesystem operation,
produces no merged output, and exits with code 1 instead of 0. -/
theorem c2_three_arg_invocation_rejected :
    (runMain threeArgInput).exitCode = 1 ∧
    (runMain threeArgInput).events = [] ∧
    (runMain threeArgInput).output = none :=
  ⟨rfl, rfl, rfl⟩

/-! ### C5 -/

/-- C5 counterexample: in a successful concrete run the merged tree is
written to the primary output path by a direct write — the trace has a
`writeFile` on `config/config.yml` itself and no rename targeting that
path, so the write does not go through the temp-then-rename publish
pattern. -/
theorem c5_output_write_direct_counterexample :
    ((runMain tar1090Input).events.any fun e =>
        match e with
        | FsOp.writeFile p _ => p == "config/config.yml"
        | _ => false) = true ∧
    ((runMain tar1090Input).events.all fun e =>
        match e with
        | FsOp.rename _ dst => dst != "config/config.yml"
        | _ => true) = true :=
  ⟨rfl, rfl⟩

theorem c5_aux (op dp up : String) (us : FileState) (ev1 ev2 : List FsOp)
    (ff : FileState) (c1 : Yaml)
    (h1 : (ev1.all fun e =>
        match e with
        | FsOp.rename _ dst => dst == up
        | _ => true) = true)
    (h2 : (ev2.all fun e =>
        match e with
        | FsOp.rename _ dst => dst == up
        | _ => true) = true)
    (hok : (applyForced op dp us (ev1 ++ ev2) ff c1).exitCode = 0) :
    ((applyForced op dp us (ev1 ++ ev2) ff c1).events.any fun e =>
        match e with
        | FsOp.writeFile p _ => p == op
        | _ => false) = true ∧
    ((applyForced op dp us (ev1 ++ ev2) ff c1).events.all fun e =>
        match e with
        | FsOp.rename _ dst => dst == up
        | _ => true) = true := by
  rcases applyForced_cases op dp us (ev1 ++ ev2) ff c1 with hap | ⟨c, hap⟩
  · rw [hap] at hok
    simp at hok
  · rw [hap] at hok ⊢
    constructor
    · simp [List.any_append]
    · by_cases hdp : dp = "" <;>
        simp [List.all_append, hdp, h1, h2]

/-- C5 (amended): in every successful run, the final merged tree is
published to the primary output path by a direct in-place write (a
`writeFile` on the output path itself, with no rename ever targeting
it); the temp-then-rename atomic pattern is used only for the user
overlay — every rename of the run targets the user overlay path. -/
theorem c5_output_written_directly (i : RunInput)
    (prog dd up op dp : String) (hargv : i.argv = [prog, dd, up, op, dp])
    (hok : (runMain i).exitCode = 0) :
    ((runMain i).events.any fun e =>
        match e with
        | FsOp.writeFile p _ => p == op
        | _ => false) = true ∧
    ((runMain i).events.all fun e =>
        match e with
        | FsOp.rename _ dst => dst == up
        | _ => true) = true := by
  obtain ⟨argv, df, uf, ff, cpu, pid⟩ := i
  simp only at hargv
  subst hargv
  rcases df with _ | r
  · simp [runMain] at hok
  rcases r with e | d
  · simp [runMain] at hok
  by_cases hd : d.truthy
  all_goals simp only [runMain, hd, if_true, if_false, Bool.false_eq_true] at hok ⊢
  case neg => simp at hok
  rcases ensureNodeId_state_cases up pid
      (if (Option.isNone uf : Bool) then some (Except.ok d) else uf) cpu with
    hen | ⟨w, hen⟩
  · rw [hen] at hok ⊢
    rcases uf with _ | r
    · simp only [Option.isNone, if_true] at hok ⊢
      exact c5_aux op dp up _ _ [] ff _ (by simp [tmpCreate]) (by simp) hok
    · rcases r with e | u
      · simp only [Option.isNone, if_false, Bool.false_eq_true] at hok
        simp at hok
      · simp only [Option.isNone, if_false, Bool.false_eq_true] at hok ⊢
        exact c5_aux op dp up _ [] [] ff _ (by simp) (by simp) hok
  · rw [hen] at hok ⊢
    rcases uf with _ | r
    · simp only [Option.isNone, if_true] at hok ⊢
      exact c5_aux op dp up _ _ _ ff _ (by simp [tmpCreate])
        (by simp [nodeIdTemp]) hok
    · rcases r with e | u
      · simp only [Option.isNone, if_false, Bool.false_eq_true] at hok ⊢
        exact c5_aux op dp up _ [] _ ff _ (by simp) (by simp [nodeIdTemp]) hok
      · simp only [Option.isNone, if_false, Bool.false_eq_true] at hok ⊢
        exact c5_aux op dp up _ [] _ ff _ (by simp) (by simp [nodeIdTemp]) hok

/-- Witness for C5 at a concrete successful run. -/
theorem c5_output_written_directly_witness :
    ((runMain tar1090Input).events.any fun e =>
        match e with
        | FsOp.writeFile p _ => p == "config/config.yml"
        | _ => false) = true ∧
    ((runMain tar1090Input).events.all fun e =>
        match e with
        | FsOp.rename _ dst => dst == "config/user.yml"
        | _ => true) = true :=
  c5_output_written_directly tar1090Input "merge_config.py" "defaults"
    "config/user.yml" "config/config.yml" "config/config.retina.yml" rfl rfl

/-! ### C6 -/

/-- C6 counterexample: with a healthy default layer and an existing but
malformed user overlay, the run does not continue to a merged output —
it performs no write at all and exits with code 1, not 0. -/
theorem c6_malformed_user_fatal_counterexample :
    (runMain malformedUserInput).exitCode = 1 ∧
    (runMain malformedUserInput).output = none ∧
    (runMain malformedUserInput).events = [] :=
  ⟨rfl, rfl, rfl⟩

/-- C6 (amended): a malformed (unparseable) user or forced layer file
is fatal, exactly like a malformed default layer: the parse exception
reaches the top-level handler and the run exits with code 1 without
writing the merged output.  Only the parse of the user overlay inside
`ensure_node_id` is non-fatal. -/
theorem c6_malformed_layer_fatal (i : RunInput)
    (h : i.userFile = some (Except.error ()) ∨
         i.forcedFile = some (Except.error ())) :
    (runMain i).exitCode = 1 ∧ (runMain i).output = none := by
  obtain ⟨argv, df, uf, ff, cpu, pid⟩ := i
  simp only at h
  rcases argv with _ | ⟨a, argv⟩
  · exact ⟨rfl, rfl⟩
  rcases argv with _ | ⟨b, argv⟩
  · exact ⟨rfl, rfl⟩
  rcases argv with _ | ⟨c, argv⟩
  · exact ⟨rfl, rfl⟩
  rcases argv with _ | ⟨d4, argv⟩
  · exact ⟨rfl, rfl⟩
  rcases argv with _ | ⟨e5, argv⟩
  · exact ⟨rfl, rfl⟩
  rcases argv with _ | ⟨f6, argv⟩
  case cons.cons.cons.cons.cons.cons => exact ⟨rfl, rfl⟩
  rcases df with _ | r
  · exact ⟨rfl, rfl⟩
  rcases r with e | d
  · exact ⟨rfl, rfl⟩
  by_cases hd : d.truthy
  all_goals simp only [runMain, hd, if_true, if_false, Bool.false_eq_true]
  case neg => constructor <;> first | rfl | trivial
  rcases h with h | h
  · subst h
    simp only [Option.isNone, if_false, Bool.false_eq_true]
    exact ⟨rfl, rfl⟩
  · subst h
    rcases uf with _ | r
    · simp only [Option.isNone, if_true]
      rw [show (ensureNodeId c pid (some (Except.ok d)) cpu) =
            ((ensureNodeId c pid (some (Except.ok d)) cpu).1,
             (ensureNodeId c pid (some (Except.ok d)) cpu).2) from rfl,
          ensureNodeId_ok_state]
      exact ⟨rfl, rfl⟩
    · rcases r with e | u
      · simp only [Option.isNone, if_false, Bool.false_eq_true]
        exact ⟨rfl, rfl⟩
      · simp only [Option.isNone, if_false, Bool.false_eq_true]
        rw [show (ensureNodeId c pid (some (Except.ok u)) cpu) =
              ((ensureNodeId c pid (some (Except.ok u)) cpu).1,
               (ensureNodeId c pid (some (Except.ok u)) cpu).2) from rfl,
            ensureNodeId_ok_state]
        exact ⟨rfl, rfl⟩

/-- Witness for C6 at the concrete malformed-user world. -/
theorem c6_malformed_layer_fatal_witness :
    (runMain malformedUserInput).exitCode = 1 ∧
    (runMain malformedUserInput).output = none :=
  c6_malformed_layer_fatal malformedUserInput (Or.inl rfl)

/-! ### C7 -/

theorem lookupKey_setKey (l : List (String × Yaml)) (k k' : String) (v : Yaml) :
    lookupKey (setKey l k v) k' = if k' = k then some v else lookupKey l k' := by
  induction l with
  | nil =>
    by_cases h : k' = k
    · simp [setKey, lookupKey, h]
    · have h' : ¬(k = k') := fun hh => h hh.symm
      simp [setKey, lookupKey, h, h']
  | cons kv rest ih =>
    obtain ⟨k₀, v₀⟩ := kv
    by_cases h0 : k₀ = k
    · subst h0
      by_cases h : k' = k₀
      · subst h
        simp [setKey, lookupKey]
      · have h' : ¬(k₀ = k') := fun hh => h hh.symm
        simp [setKey, lookupKey, h, h']
    · by_cases h1 : k₀ = k'
      · subst h1
        simp [setKey, lookupKey, h0]
      · simp [setKey, lookupKey, h0, h1, ih]

theorem lookupPath_injectNodeId (kvs nkvs : List (String × Yaml))
    (nid : String) :
    lookupPath (injectNodeId kvs nkvs nid) ["network", "node_id"] =
      some (.str nid) := by
  simp [injectNodeId, lookupPath, lookupKey_setKey]

/-- C7 counterexample: on Pi hardware with a perfectly valid serial but
an absent user overlay file, `ensure_node_id` does not load the overlay
as an empty mapping and persist the candidate identifier — the read
failure is caught and the function does nothing: no write, no rename,
the file stays absent. -/
theorem c7_absent_overlay_counterexample :
    getRpiSerial (some cpuGood) = some "abcdef12" ∧
    ensureNodeId "/data/user.yml" 7 none (some cpuGood) = (none, []) :=
  ⟨rfl, rfl⟩

/-- C7 (amended): `ensure_node_id` is a no-op when the serial is
unusable (no `Serial` line, all-zero placeholder, or a stripped value
shorter than 8 characters); otherwise the candidate is `ret` plus the
last 8 characters of the serial, case preserved; an existing overlay
parsing to a falsy value is treated as an empty mapping, but an absent
overlay file makes the whole function a caught no-op (nothing is
created); if the stored identifier equals the candidate nothing is
written, and if it is different or absent the identifier is set at
`network.node_id` and persisted by a write to a temporary file followed
by a rename onto the same overlay path; the write also happens when the
overlay mapping has no `network` entry at all (one is created) and when
the overlay parsed falsy (the empty mapping gains
`network.node_id`). -/
theorem c7_ensure_node_id_behavior :
    (∀ up pid cpu, ensureNodeId up pid none cpu = (none, [])) ∧
    (∀ up pid user cpu, getRpiSerial cpu = none →
      ensureNodeId up pid user cpu = (user, [])) ∧
    (∀ lines, (∀ l ∈ lines, listStartsWith l "Serial".data = false) →
      serialCandidate lines = none) ∧
    (∀ line rest fieldRaw, listStartsWith line "Serial".data = true →
      fieldAfterColon line = some fieldRaw →
      (trimChars fieldRaw = zeroSerial ∨ (trimChars fieldRaw).length < 8) →
      serialCandidate (line :: rest) = serialCandidate rest) ∧
    (∀ line rest fieldRaw, listStartsWith line "Serial".data = true →
      fieldAfterColon line = some fieldRaw →
      8 ≤ (trimChars fieldRaw).length → trimChars fieldRaw ≠ zeroSerial →
      serialCandidate (line :: rest) = some (lastN 8 (trimChars fieldRaw))) ∧
    (∀ up pid cpu s kvs nkvs, getRpiSerial cpu = some s →
      (Yaml.map kvs).truthy = true →
      lookupKey kvs "network" = some (.map nkvs) →
      lookupKey nkvs "node_id" = some (.str ("ret" ++ s)) →
      ensureNodeId up pid (some (Except.ok (.map kvs))) cpu =
        (some (Except.ok (.map kvs)), [])) ∧
    (∀ up pid cpu s kvs nkvs, getRpiSerial cpu = some s →
      (Yaml.map kvs).truthy = true →
      lookupKey kvs "network" = some (.map nkvs) →
      (lookupKey nkvs "node_id" = none ∨
       ∃ cur, lookupKey nkvs "node_id" = some (.str cur) ∧ cur ≠ "ret" ++ s) →
      ensureNodeId up pid (some (Except.ok (.map kvs))) cpu =
        (some (Except.ok (injectNodeId kvs nkvs ("ret" ++ s))),
         [FsOp.writeFile (nodeIdTemp up pid)
            (injectNodeId kvs nkvs ("ret" ++ s)),
          FsOp.rename (nodeIdTemp up pid) up]) ∧
      lookupPath (injectNodeId kvs nkvs ("ret" ++ s)) ["network", "node_id"] =
        some (.str ("ret" ++ s))) ∧
    (∀ up pid cpu s kvs, getRpiSerial cpu = some s →
      (Yaml.map kvs).truthy = true →
      lookupKey kvs "network" = none →
      ensureNodeId up pid (some (Except.ok (.map kvs))) cpu =
        (some (Except.ok (injectNodeId kvs [] ("ret" ++ s))),
         [FsOp.writeFile (nodeIdTemp up pid)
            (injectNodeId kvs [] ("ret" ++ s)),
          FsOp.rename (nodeIdTemp up pid) up]) ∧
      lookupPath (injectNodeId kvs [] ("ret" ++ s)) ["network", "node_id"] =
        some (.str ("ret" ++ s))) ∧
    (∀ up pid cpu s u, getRpiSerial cpu = some s → u.truthy = false →
      ensureNodeId up pid (some (Except.ok u)) cpu =
        (some (Except.ok (injectNodeId [] [] ("ret" ++ s))),
         [FsOp.writeFile (nodeIdTemp up pid)
            (injectNodeId [] [] ("ret" ++ s)),
          FsOp.rename (nodeIdTemp up pid) up]) ∧
      lookupPath (injectNodeId [] [] ("ret" ++ s)) ["network", "node_id"] =
        some (.str ("ret" ++ s))) := by
  refine ⟨fun up pid cpu => rfl, ?_, ?_, ?_, ?_, ?_, ?_, ?_, ?_⟩
  · intro up pid user cpu h
    rcases user with _ | r
    · rfl
    rcases r with e | u
    · rfl
    · simp [ensureNodeId, nodeIdUpdate, h]
  · intro lines h
    induction lines with
    | nil => rfl
    | cons l rest ih =>
      have hl := h l (List.mem_cons_self _ _)
      rw [serialCandidate, hl]
      · exact ih fun l' hm => h l' (List.mem_cons_of_mem _ hm)
      -- the positional rewrite above handles the `if`
  · intro line rest fieldRaw hstart hfield hbad
    have hcond : ¬(8 ≤ (trimChars fieldRaw).length ∧
        trimChars fieldRaw ≠ zeroSerial) := by
      rintro ⟨h8, hz⟩
      rcases hbad with hbad | hbad
      · exact hz hbad
      · omega
    rw [serialCandidate, hstart]
    simp only [hfield]
    rw [if_neg hcond]
    simp
  · intro line rest fieldRaw hstart hfield h8 hz
    rw [serialCandidate, hstart]
    simp only [hfield]
    rw [if_pos (And.intro h8 hz)]
    simp
  · intro up pid cpu s kvs nkvs hs ht hnet hnid
    simp [ensureNodeId, nodeIdUpdate, hs, ht, hnet, hnid]
  · intro up pid cpu s kvs nkvs hs ht hnet hnid
    refine ⟨?_, lookupPath_injectNodeId kvs nkvs ("ret" ++ s)⟩
    rcases hnid with hnid | ⟨cur, hnid, hne⟩
    · simp [ensureNodeId, nodeIdUpdate, hs, ht, hnet, hnid]
    · simp [ensureNodeId, nodeIdUpdate, hs, ht, hnet, hnid, hne]
  · intro up pid cpu s kvs hs ht hn
    exact ⟨by simp [ensureNodeId, nodeIdUpdate, hs, ht, hn],
           lookupPath_injectNodeId kvs [] ("ret" ++ s)⟩
  · intro up pid cpu s u hs hf
    exact ⟨by simp [ensureNodeId, nodeIdUpdate, lookupKey, hs, hf],
           lookupPath_injectNodeId [] [] ("ret" ++ s)⟩

/-- Witness for C7 at fully concrete inputs: a board swap — the stored
identifier differs from the hardware candidate — triggers the atomic
overwrite at the fixed key path, and a falsy-parsing overlay (an empty
`user.yml`) is treated as an empty mapping and gains the identifier by
the same atomic write. -/
theorem c7_ensure_node_id_behavior_witness :
    (ensureNodeId "/data/user.yml" 7
        (some (Except.ok (.map [("network",
          .map [("node_id", .str "retold00000")])])))
        (some cpuGood) =
      (some (Except.ok (injectNodeId
          [("network", .map [("node_id", .str "retold00000")])]
          [("node_id", .str "retold00000")] ("ret" ++ "abcdef12"))),
       [FsOp.writeFile (nodeIdTemp "/data/user.yml" 7)
          (injectNodeId [("network", .map [("node_id", .str "retold00000")])]
            [("node_id", .str "retold00000")] ("ret" ++ "abcdef12")),
        FsOp.rename (nodeIdTemp "/data/user.yml" 7) "/data/user.yml"]) ∧
    lookupPath (injectNodeId
        [("network", .map [("node_id", .str "retold00000")])]
        [("node_id", .str "retold00000")] ("ret" ++ "abcdef12"))
      ["network", "node_id"] = some (.str ("ret" ++ "abcdef12"))) ∧
    (ensureNodeId "/data/user.yml" 7 (some (Except.ok Yaml.null))
        (some cpuGood) =
      (some (Except.ok (injectNodeId [] [] ("ret" ++ "abcdef12"))),
       [FsOp.writeFile (nodeIdTemp "/data/user.yml" 7)
          (injectNodeId [] [] ("ret" ++ "abcdef12")),
        FsOp.rename (nodeIdTemp "/data/user.yml" 7) "/data/user.yml"]) ∧
    lookupPath (injectNodeId [] [] ("ret" ++ "abcdef12"))
      ["network", "node_id"] = some (.str ("ret" ++ "abcdef12"))) :=
  ⟨c7_ensure_node_id_behavior.2.2.2.2.2.2.1 "/data/user.yml" 7
      (some cpuGood) "abcdef12" _ _ rfl rfl rfl
      (Or.inr ⟨"retold00000", rfl, by decide⟩),
   c7_ensure_node_id_behavior.2.2.2.2.2.2.2.2 "/data/user.yml" 7
      (some cpuGood) "abcdef12" Yaml.null rfl rfl⟩

/-! ### C8 -/

theorem lookupPath_injectNodeId_other (kvs nkvs : List (String × Yaml))
    (nid : String)
    (hnet : lookupKey kvs "network" = some (.map nkvs) ∨
            (lookupKey kvs "network" = none ∧ nkvs = [])) :
    ∀ p, p ≠ [] → p ≠ ["network"] →
      (∀ q, p ≠ "network" :: "node_id" :: q) →
      lookupPath (injectNodeId kvs nkvs nid) p = lookupPath (.map kvs) p := by
  intro p h1 h2 h3
  rcases p with _ | ⟨k, rest⟩
  · exact absurd rfl h1
  by_cases hk : k = "network"
  · subst hk
    rcases rest with _ | ⟨k2, rest2⟩
    · exact absurd rfl h2
    have hk2 : ¬(k2 = "node_id") := by
      intro h
      subst h
      exact (h3 rest2) rfl
    have hk2s : ¬(("node_id" : String) = k2) := fun h => hk2 h.symm
    rcases hnet with hnet | ⟨hnet, hnk⟩
    · simp [injectNodeId, lookupPath, lookupKey_setKey, hk2, hnet]
    · subst hnk
      simp [injectNodeId, lookupPath, lookupKey_setKey, hk2, hnet, lookupKey,
        hk2s]
  · simp only [injectNodeId, lookupPath, lookupKey_setKey]
    rw [if_neg hk]

/-- The node-id decision on a truthy mapping overlay with a usable
serial, with the serial lookup already resolved. -/
theorem nodeIdUpdate_map_eq (kvs : List (String × Yaml)) (cpu : Option String)
    (s : String) (hs : getRpiSerial cpu = some s)
    (ht : (Yaml.map kvs).truthy = true) :
    nodeIdUpdate (some (Except.ok (.map kvs))) cpu =
      (match lookupKey kvs "network" with
       | some (.map nkvs) =>
         match lookupKey nkvs "node_id" with
         | some (.str cur) =>
           if cur = "ret" ++ s then none
           else some (injectNodeId kvs nkvs ("ret" ++ s))
         | some _ => some (injectNodeId kvs nkvs ("ret" ++ s))
         | none => some (injectNodeId kvs nkvs ("ret" ++ s))
       | some _ => none
       | none => some (injectNodeId kvs [] ("ret" ++ s))) := by
  simp [nodeIdUpdate, hs, ht]

theorem afterTree_lookup_other (d : Yaml) (cpu : Option String)
    (hd : d.truthy = true) :
    ∀ p, p ≠ [] → p ≠ ["network"] →
      (∀ q, p ≠ "network" :: "node_id" :: q) →
      lookupPath (afterTree d cpu) p = lookupPath d p := by
  intro p h1 h2 h3
  unfold afterTree
  cases hs : getRpiSerial cpu with
  | none =>
    have hnu : nodeIdUpdate (some (Except.ok d)) cpu = none := by
      simp [nodeIdUpdate, hs]
    rw [hnu]
  | some s =>
    cases d with
    | map kvs =>
      rw [nodeIdUpdate_map_eq kvs cpu s hs hd]
      cases hn : lookupKey kvs "network" with
      | none =>
        exact lookupPath_injectNodeId_other kvs [] _ (Or.inr ⟨hn, rfl⟩)
          p h1 h2 h3
      | some nv =>
        cases nv with
        | map nkvs =>
          dsimp only
          cases hni : lookupKey nkvs "node_id" with
          | none =>
            exact lookupPath_injectNodeId_other kvs nkvs _ (Or.inl hn)
              p h1 h2 h3
          | some v =>
            cases v with
            | str cur =>
              dsimp only
              by_cases hc : cur = "ret" ++ s
              · rw [if_pos hc]
              · rw [if_neg hc]
                exact lookupPath_injectNodeId_other kvs nkvs _ (Or.inl hn)
                  p h1 h2 h3
            | null =>
              exact lookupPath_injectNodeId_other kvs nkvs _ (Or.inl hn)
                p h1 h2 h3
            | bool b =>
              exact lookupPath_injectNodeId_other kvs nkvs _ (Or.inl hn)
                p h1 h2 h3
            | int m =>
              exact lookupPath_injectNodeId_other kvs nkvs _ (Or.inl hn)
                p h1 h2 h3
            | seq xs =>
              exact lookupPath_injectNodeId_other kvs nkvs _ (Or.inl hn)
                p h1 h2 h3
            | map m =>
              exact lookupPath_injectNodeId_other kvs nkvs _ (Or.inl hn)
                p h1 h2 h3
        | null => rfl
        | bool b => rfl
        | int m => rfl
        | str s2 => rfl
        | seq xs => rfl
    | null =>
      have hnu : nodeIdUpdate (some (Except.ok Yaml.null)) cpu = none := by
        simp [nodeIdUpdate, hs, hd]
      rw [hnu]
    | bool b =>
      have hnu : nodeIdUpdate (some (Except.ok (Yaml.bool b))) cpu = none := by
        simp [nodeIdUpdate, hs, hd]
      rw [hnu]
    | int m =>
      have hnu : nodeIdUpdate (some (Except.ok (Yaml.int m))) cpu = none := by
        simp [nodeIdUpdate, hs, hd]
      rw [hnu]
    | str s2 =>
      have hnu : nodeIdUpdate (some (Except.ok (Yaml.str s2))) cpu = none := by
        simp [nodeIdUpdate, hs, hd]
      rw [hnu]
    | seq xs =>
      have hnu : nodeIdUpdate (some (Except.ok (Yaml.seq xs))) cpu = none := by
        simp [nodeIdUpdate, hs, hd]
      rw [hnu]

theorem afterTree_nodeid (d : Yaml) (cpu : Option String) (s : String)
    (hd : d.truthy = true) (hs : getRpiSerial cpu = some s)
    (hi : networkInjectable d = true) :
    lookupPath (afterTree d cpu) ["network", "node_id"] =
      some (.str ("ret" ++ s)) := by
  unfold afterTree
  cases d with
  | map kvs =>
    rw [nodeIdUpdate_map_eq kvs cpu s hs hd]
    cases hn : lookupKey kvs "network" with
    | none => exact lookupPath_injectNodeId kvs [] _
    | some nv =>
      cases nv with
      | map nkvs =>
        dsimp only
        cases hni : lookupKey nkvs "node_id" with
        | none => exact lookupPath_injectNodeId kvs nkvs _
        | some v =>
          cases v with
          | str cur =>
            dsimp only
            by_cases hc : cur = "ret" ++ s
            · rw [if_pos hc]
              subst hc
              simp [lookupPath, hn, hni]
            · rw [if_neg hc]
              exact lookupPath_injectNodeId kvs nkvs _
          | null => exact lookupPath_injectNodeId kvs nkvs _
          | bool b => exact lookupPath_injectNodeId kvs nkvs _
          | int m => exact lookupPath_injectNodeId kvs nkvs _
          | seq xs => exact lookupPath_injectNodeId kvs nkvs _
          | map m => exact lookupPath_injectNodeId kvs nkvs _
      | null => simp [networkInjectable, hn] at hi
      | bool b => simp [networkInjectable, hn] at hi
      | int m => simp [networkInjectable, hn] at hi
      | str s2 => simp [networkInjectable, hn] at hi
      | seq xs => simp [networkInjectable, hn] at hi
  | null => simp [networkInjectable] at hi
  | bool b => simp [networkInjectable] at hi
  | int m => simp [networkInjectable] at hi
  | str s2 => simp [networkInjectable] at hi
  | seq xs => simp [networkInjectable] at hi

/-- C8: starting without a user overlay, a run with a healthy default
layer leaves the overlay existing and parseable, its tree agreeing with
the default tree at every path that is not the fixed node-identity key
path (nor an ancestor forced to differ by the injection), and holding
the hardware-derived identifier `ret` plus the 8-character serial at
`network.node_id` whenever a valid serial is available and the
default's `network` entry admits the injection. -/
theorem c8_user_overlay_created_from_defaults (i : RunInput)
    (prog dd up op dp : String) (hargv : i.argv = [prog, dd, up, op, dp])
    (hu : i.userFile = none) (d : Yaml)
    (hdf : i.defaultFile = some (Except.ok d))
    (hok : (runMain i).exitCode = 0) :
    (runMain i).userAfter = some (Except.ok (afterTree d i.cpuinfo)) ∧
    (∀ p, p ≠ [] → p ≠ ["network"] →
      (∀ q, p ≠ "network" :: "node_id" :: q) →
      lookupPath (afterTree d i.cpuinfo) p = lookupPath d p) ∧
    (∀ s, getRpiSerial i.cpuinfo = some s → networkInjectable d = true →
      lookupPath (afterTree d i.cpuinfo) ["network", "node_id"] =
        some (.str ("ret" ++ s))) := by
  obtain ⟨argv, df, uf, ff, cpu, pid⟩ := i
  simp only at hargv hu hdf hok ⊢
  subst hargv hu hdf
  by_cases hd : d.truthy
  all_goals simp only [runMain, hd, if_true, if_false, Bool.false_eq_true,
    Option.isNone] at hok ⊢
  case neg => simp at hok
  rw [show (ensureNodeId up pid (some (Except.ok d)) cpu) =
        ((ensureNodeId up pid (some (Except.ok d)) cpu).1,
         (ensureNodeId up pid (some (Except.ok d)) cpu).2) from rfl,
      ensureNodeId_ok_state]
  refine ⟨?_, afterTree_lookup_other d cpu hd,
    fun s hs hi => afterTree_nodeid d cpu s hd hs hi⟩
  exact applyForced_userAfter op dp _ _ ff _

/-- Witness for C8 on the fresh Pi world: the created overlay equals
the default at non-identity paths and carries `retabcdef12` at
`network.node_id`. -/
theorem c8_user_overlay_created_from_defaults_witness :
    (runMain freshPiInput).userAfter =
      some (Except.ok (afterTree freshPiDefault freshPiInput.cpuinfo)) ∧
    (∀ p, p ≠ [] → p ≠ ["network"] →
      (∀ q, p ≠ "network" :: "node_id" :: q) →
      lookupPath (afterTree freshPiDefault freshPiInput.cpuinfo) p =
        lookupPath freshPiDefault p) ∧
    (∀ s, getRpiSerial freshPiInput.cpuinfo = some s →
      networkInjectable freshPiDefault = true →
      lookupPath (afterTree freshPiDefault freshPiInput.cpuinfo)
        ["network", "node_id"] = some (.str ("ret" ++ s))) :=
  c8_user_overlay_created_from_defaults freshPiInput "merge_config.py"
    "defaults" "config/user.yml" "config/config.yml" "" rfl rfl
    freshPiDefault rfl rfl

end RetinaNode
